import Mathlib

/-!
# Verification of the rungrep run-retrieval engine

A shallow embedding of the core of `src/index.ts` of the `rungrep` CLI:
the sliding-window, paginated, deduplicating retrieval loop `fetchRuns`,
its transport primitive `ghFetch`, and the `--since` parser `parseSince`.

Modelling conventions:
* Timestamps are integers counting milliseconds since the epoch, the value
  of `Date.getTime()` in the source.  `new Date(run.created_at).getTime()`
  is therefore modelled by reading the `created_at` field directly, and the
  source's `oldestDate.setSeconds(oldestDate.getSeconds() - 1)` is an exact
  subtraction of 1000 milliseconds.
* The remote API is an oracle `Request → HttpResponse`: a pure function
  from the request (base path plus the query parameters the source puts in
  `URLSearchParams`) to either a parsed JSON body or a non-2xx status with
  a body text.  `fetch` resolves deterministically per URL within one
  retrieval, which is exactly the quantification the properties need.
* The two `while (true)` loops of `fetchRuns` are embedded with explicit
  fuel; running out of fuel is a distinguished outcome, never confused with
  the source's own termination cases.
* The side effects of the loop (HTTP requests issued, invocations of the
  `onProgress` observer) are logged in a `Traces` value threaded through
  the recursion, so that properties about "no further page is requested"
  or "the observer is invoked exactly once per page" are statements about
  observable behaviour.
-/

namespace Rungrep

/-- The fields of a workflow run that the retrieval core inspects: the
unique identifier used for deduplication and the creation timestamp
(milliseconds, the value of `new Date(run.created_at).getTime()`).  All
other fields of the source's `WorkflowRun` are opaque pass-through data. -/
structure WorkflowRun where
  id : Int
  created_at : Int
  deriving Repr, DecidableEq

/-- The JSON body of a runs query: `{ total_count, workflow_runs }`. -/
structure WorkflowRunsResponse where
  total_count : Nat
  workflow_runs : List WorkflowRun
  deriving Repr, DecidableEq

/-- The structured error of `class GitHubApiError extends Error`: it stores
the HTTP `status` and request `path` as fields and embeds the response body
in the inherited `message` via `super(...)`. -/
structure GitHubApiError where
  status : Nat
  message : String
  path : String
  deriving Repr, DecidableEq

/-- The `GitHubApiError` constructor: `super` message is
`GitHub API <status>: <body>`. -/
def mkGitHubApiError (status : Nat) (body : String) (path : String) : GitHubApiError :=
  { status := status
    message := "GitHub API " ++ toString status ++ ": " ++ body
    path := path }

/-- The caller-fixed part of a retrieval: the `repo`, `opts` argument and
the `since` cutoff of `fetchRuns` (timestamps as milliseconds). -/
structure FetchOpts where
  repo : String
  branch : Option String := none
  status : Option String := none
  workflowId : Option Int := none
  since : Option Int := none

/-- The `basePath` computation of `fetchRuns`. -/
def basePath (opts : FetchOpts) : String :=
  match opts.workflowId with
  | some w => "/repos/" ++ opts.repo ++ "/actions/workflows/" ++ toString w ++ "/runs"
  | none => "/repos/" ++ opts.repo ++ "/actions/runs"

/-- One HTTP request of the retrieval loop: the base path plus the query
parameters the source stores in `URLSearchParams` (`branch`, `status`,
`per_page=100` implicit, the `created` range encoded by `since`/`upper`,
and `page`). -/
structure Request where
  base : String
  branch : Option String
  status : Option String
  since : Option Int
  upper : Option Int
  page : Nat
  deriving Repr, DecidableEq

/-- The `created` query parameter: `since..upper`, `>=since` or `<=upper`
(absent when neither bound is set), as in the source's three-way branch. -/
def createdParam (since upper : Option Int) : Option String :=
  match since, upper with
  | some s, some u => some (toString s ++ ".." ++ toString u)
  | some s, none => some (">=" ++ toString s)
  | none, some u => some ("<=" ++ toString u)
  | none, none => none

/-- The request path `basePath?params`, with parameters in the source's
`URLSearchParams` insertion order. -/
def Request.path (r : Request) : String :=
  r.base ++ "?" ++ String.intercalate "&"
    ((r.branch.map (fun b => "branch=" ++ b)).toList ++
     (r.status.map (fun s => "status=" ++ s)).toList ++
     ["per_page=100"] ++
     (createdParam r.since r.upper).toList ++
     ["page=" ++ toString r.page])

/-- The request `fetchRuns` issues for a given window upper bound and page
number; the lower bound is always the caller's `since`. -/
def mkRequest (opts : FetchOpts) (upper : Option Int) (page : Nat) : Request :=
  { base := basePath opts
    branch := opts.branch
    status := opts.status
    since := opts.since
    upper := upper
    page := page }

/-- The remote side of one request: a parsed 2xx JSON body, or a non-2xx
status with its body text. -/
inductive HttpResponse where
  | ok (data : WorkflowRunsResponse)
  | err (status : Nat) (body : String)
  deriving Repr, DecidableEq

/-- The remote API as a deterministic response per request. -/
abbrev Oracle := Request → HttpResponse

/-- `ghFetch`: return the typed body on 2xx, otherwise raise a
`GitHubApiError` carrying status, body text and the request path. -/
def ghFetch (oracle : Oracle) (req : Request) : Except GitHubApiError WorkflowRunsResponse :=
  match oracle req with
  | .ok d => .ok d
  | .err s b => .error (mkGitHubApiError s b req.path)

/-- The observable side effects of a retrieval: every HTTP request issued,
in order, and every `(fetched, total)` pair passed to `onProgress`. -/
structure Traces where
  requests : List Request
  progress : List (Nat × Nat)
  deriving Repr, DecidableEq

/-- The mutable state of `fetchRuns` as seen inside one window's page
loop: the cross-window accumulator `allRuns`/`seenIds`/`overallTotal` and
the per-window `maxTotalCount`, `batchNewRuns`, `batchSkipped`,
`hitSinceCutoff`. -/
structure InnerState where
  allRuns : List WorkflowRun
  seenIds : List Int
  overallTotal : Nat
  maxTotalCount : Nat
  batchNewRuns : Nat
  batchSkipped : Nat
  hitSinceCutoff : Bool
  deriving Repr, DecidableEq

/-- Whether a run is strictly older than the `--since` cutoff:
`opts.since && new Date(run.created_at).getTime() < opts.since.getTime()`. -/
def belowSince (since : Option Int) (run : WorkflowRun) : Bool :=
  match since with
  | some s => run.created_at < s
  | none => false

/-- The `for (const run of data.workflow_runs)` body of the page loop:
stop at the first run older than the cutoff (setting `hitSinceCutoff`,
consuming nothing further from the page), skip runs whose id is already in
`seenIds`, and append the rest to both `allRuns` and `seenIds`. -/
def processRuns (since : Option Int) : List WorkflowRun → InnerState → InnerState
  | [], st => st
  | run :: rest, st =>
    if belowSince since run then
      { st with hitSinceCutoff := true }
    else if st.seenIds.contains run.id then
      processRuns since rest { st with batchSkipped := st.batchSkipped + 1 }
    else
      processRuns since rest
        { st with
          seenIds := st.seenIds ++ [run.id]
          allRuns := st.allRuns ++ [run]
          batchNewRuns := st.batchNewRuns + 1 }

/-- Lines 258-259 of the source: raise `maxTotalCount` to the page's
`total_count` if larger, then raise `overallTotal` to `maxTotalCount` if
larger. -/
def bumpTotals (st : InnerState) (total : Nat) : InnerState :=
  let m := if total > st.maxTotalCount then total else st.maxTotalCount
  { st with
    maxTotalCount := m
    overallTotal := if m > st.overallTotal then m else st.overallTotal }

/-- How one window's page loop ended: normally (carrying the final state),
with a thrown `GitHubApiError`, or — an artefact of the embedding only —
out of fuel. -/
inductive PageOutcome where
  | done (st : InnerState)
  | failed (e : GitHubApiError)
  | fuel
  deriving Repr, DecidableEq

/-- The inner `while (true)` page loop of `fetchRuns`: request the current
page, propagate a transport error immediately, otherwise update the totals,
invoke the progress observer with the pre-merge accumulator size and the
updated overall total, merge the page via `processRuns`, and stop on the
since-cutoff or on a short page (< 100 records), else move to the next
page. -/
def pageLoop (oracle : Oracle) (opts : FetchOpts) (upper : Option Int) :
    Nat → Nat → InnerState → Traces → PageOutcome × Traces
  | 0, _, _, tr => (.fuel, tr)
  | fuel + 1, page, st, tr =>
    let req := mkRequest opts upper page
    let trReq : Traces := { tr with requests := tr.requests ++ [req] }
    match ghFetch oracle req with
    | .error e => (.failed e, trReq)
    | .ok data =>
      let st1 := bumpTotals st data.total_count
      let tr1 : Traces :=
        { trReq with progress := trReq.progress ++ [(st.allRuns.length, st1.overallTotal)] }
      let st2 := processRuns opts.since data.workflow_runs st1
      if st2.hitSinceCutoff then (.done st2, tr1)
      else if data.workflow_runs.length < 100 then (.done st2, tr1)
      else pageLoop oracle opts upper fuel (page + 1) st2 tr1

/-- The state of the outer window loop between iterations. -/
structure OuterState where
  allRuns : List WorkflowRun
  seenIds : List Int
  upperBound : Option Int
  overallTotal : Nat
  deriving Repr, DecidableEq

/-- The per-window reset at the top of the outer loop: `batchNewRuns = 0`,
`batchSkipped = 0`, `maxTotalCount = 0`, `hitSinceCutoff = false`. -/
def innerInit (st : OuterState) : InnerState :=
  { allRuns := st.allRuns
    seenIds := st.seenIds
    overallTotal := st.overallTotal
    maxTotalCount := 0
    batchNewRuns := 0
    batchSkipped := 0
    hitSinceCutoff := false }

/-- The `oldestTime` scan of the slide step, folded left over the
accumulator with the source's `Infinity` start modelled as `none`. -/
def oldestTimeFrom (acc : Option Int) : List WorkflowRun → Option Int
  | [] => acc
  | run :: rest =>
    oldestTimeFrom
      (match acc with
       | none => some run.created_at
       | some t => if run.created_at < t then some run.created_at else some t)
      rest

/-- The oldest `created_at` among a list of runs (`none` on the empty
list, where the source would be left with `Infinity`). -/
def oldestTime (runs : List WorkflowRun) : Option Int :=
  oldestTimeFrom none runs

/-- How the whole retrieval ended: the result list of `fetchRuns`, a
propagated `GitHubApiError` (the accumulator is discarded), or — an
embedding artefact — out of fuel. -/
inductive FetchOutcome where
  | ok (runs : List WorkflowRun)
  | apiError (e : GitHubApiError)
  | outOfFuel
  deriving Repr, DecidableEq

/-- The outer `while (true)` window loop of `fetchRuns`: run the page loop
for the current window, propagate errors; terminate returning the
accumulator when the window's best-known total is at most 1000 or the
since-cutoff was hit, or when the window contributed no new record;
otherwise slide the window, setting the next upper bound to the oldest
accumulated `created_at` minus one second (1000 ms).  The `oldestTime`
`none` case is unreachable from any reachable state (it requires
`batchNewRuns > 0` with an empty accumulator); the source would throw on
`toISOString` of an invalid date there. -/
def fetchRunsLoop (oracle : Oracle) (opts : FetchOpts) (pageFuel : Nat) :
    Nat → OuterState → Traces → FetchOutcome × Traces
  | 0, _, tr => (.outOfFuel, tr)
  | fuel + 1, st, tr =>
    match pageLoop oracle opts st.upperBound pageFuel 1 (innerInit st) tr with
    | (.fuel, tr') => (.outOfFuel, tr')
    | (.failed e, tr') => (.apiError e, tr')
    | (.done st', tr') =>
      if st'.maxTotalCount ≤ 1000 ∨ st'.hitSinceCutoff = true then (.ok st'.allRuns, tr')
      else if st'.batchNewRuns = 0 then (.ok st'.allRuns, tr')
      else
        match oldestTime st'.allRuns with
        | none => (.ok st'.allRuns, tr')
        | some m =>
          fetchRunsLoop oracle opts pageFuel fuel
            { allRuns := st'.allRuns
              seenIds := st'.seenIds
              upperBound := some (m - 1000)
              overallTotal := st'.overallTotal } tr'

/-- The initial controller state: empty accumulator, no upper bound. -/
def initialState : OuterState :=
  { allRuns := [], seenIds := [], upperBound := none, overallTotal := 0 }

/-- `fetchRuns`: the whole retrieval, from the empty accumulator and empty
traces, with the given page-loop and window-loop fuel. -/
def fetchRuns (oracle : Oracle) (opts : FetchOpts) (pageFuel fuel : Nat) :
    FetchOutcome × Traces :=
  fetchRunsLoop oracle opts pageFuel fuel initialState { requests := [], progress := [] }

/-- The records the oracle serves for one page of one window (empty for a
non-2xx response, which aborts the loop before the body is used). -/
def pageRuns (oracle : Oracle) (opts : FetchOpts) (upper : Option Int) (page : Nat) :
    List WorkflowRun :=
  match oracle (mkRequest opts upper page) with
  | .ok d => d.workflow_runs
  | .err _ _ => []

/-- The `total_count` the oracle reports for one page (0 for a non-2xx
response, which aborts the loop before the count is used). -/
def pageTotal (oracle : Oracle) (opts : FetchOpts) (upper : Option Int) (page : Nat) : Nat :=
  match oracle (mkRequest opts upper page) with
  | .ok d => d.total_count
  | .err _ _ => 0

/-- The records of `n` consecutive pages of one window, concatenated in
page order starting at page `start`. -/
def pagesFrom (oracle : Oracle) (opts : FetchOpts) (upper : Option Int) (start : Nat) :
    Nat → List WorkflowRun
  | 0 => []
  | n + 1 => pageRuns oracle opts upper start ++ pagesFrom oracle opts upper (start + 1) n

/-- The `total_count` values of `n` consecutive pages of one window. -/
def pageTotals (oracle : Oracle) (opts : FetchOpts) (upper : Option Int) (start : Nat) :
    Nat → List Nat
  | 0 => []
  | n + 1 => pageTotal oracle opts upper start :: pageTotals oracle opts upper (start + 1) n

/-- The requests for `n` consecutive pages of one window. -/
def pageRequests (opts : FetchOpts) (upper : Option Int) (start : Nat) : Nat → List Request
  | 0 => []
  | n + 1 => mkRequest opts upper start :: pageRequests opts upper (start + 1) n

/-! ## The merge step: what `processRuns` does to the accumulator -/

/-- Everything the per-page merge does to the accumulator: it appends a
sublist `added` of the page to `allRuns` and the matching ids to `seenIds`,
appends only records at or after the cutoff, preserves freedom from
duplicates, leaves the totals alone, and counts the appended records in
`batchNewRuns`. -/
theorem processRuns_spec (since : Option Int) (l : List WorkflowRun) :
    ∀ st : InnerState, ∃ added : List WorkflowRun,
      (processRuns since l st).allRuns = st.allRuns ++ added ∧
      (processRuns since l st).seenIds = st.seenIds ++ added.map (fun r => r.id) ∧
      added.Sublist l ∧
      (∀ r ∈ added, belowSince since r = false) ∧
      (st.seenIds.Nodup → (processRuns since l st).seenIds.Nodup) ∧
      (processRuns since l st).maxTotalCount = st.maxTotalCount ∧
      (processRuns since l st).overallTotal = st.overallTotal ∧
      st.batchNewRuns + added.length = (processRuns since l st).batchNewRuns := by
  induction l with
  | nil =>
    intro st
    exact ⟨[], by simp [processRuns]⟩
  | cons run rest ih =>
    intro st
    by_cases hb : belowSince since run = true
    · refine ⟨[], ?_⟩
      simp [processRuns, hb]
    · rw [Bool.not_eq_true] at hb
      by_cases hc : st.seenIds.contains run.id = true
      · obtain ⟨added, h1, h2, h3, h4, h5, h6, h7, h8⟩ :=
          ih { st with batchSkipped := st.batchSkipped + 1 }
        refine ⟨added, ?_⟩
        simp only [processRuns, hb, Bool.false_eq_true, if_false, hc, if_true]
        exact ⟨h1, h2, h3.cons _, h4, h5, h6, h7, h8⟩
      · rw [Bool.not_eq_true] at hc
        obtain ⟨added, h1, h2, h3, h4, h5, h6, h7, h8⟩ :=
          ih { st with
                seenIds := st.seenIds ++ [run.id]
                allRuns := st.allRuns ++ [run]
                batchNewRuns := st.batchNewRuns + 1 }
        refine ⟨run :: added, ?_⟩
        have hmem : run.id ∉ st.seenIds := by
          simp [List.contains] at hc; exact hc
        have hstep : processRuns since (run :: rest) st =
            processRuns since rest
              { st with
                seenIds := st.seenIds ++ [run.id]
                allRuns := st.allRuns ++ [run]
                batchNewRuns := st.batchNewRuns + 1 } := by
          simp [processRuns, hb, hc, hmem]
        rw [hstep]
        refine ⟨by simp [h1], by simp [h2], h3.cons₂ _, ?_, ?_, h6, h7, by simp at h8 ⊢; omega⟩
        · intro r hr
          rcases List.mem_cons.mp hr with hr | hr
          · rw [hr]; exact hb
          · exact h4 r hr
        · intro hnd
          apply h5
          simp [List.nodup_append, hnd, hmem]

theorem bumpTotals_allRuns (st : InnerState) (t : Nat) :
    (bumpTotals st t).allRuns = st.allRuns := rfl

theorem bumpTotals_seenIds (st : InnerState) (t : Nat) :
    (bumpTotals st t).seenIds = st.seenIds := rfl

theorem bumpTotals_batchNewRuns (st : InnerState) (t : Nat) :
    (bumpTotals st t).batchNewRuns = st.batchNewRuns := rfl

theorem bumpTotals_hitSinceCutoff (st : InnerState) (t : Nat) :
    (bumpTotals st t).hitSinceCutoff = st.hitSinceCutoff := rfl

/-! ## The page loop: accumulated effect of one window -/

/-- One window's page loop, when it ends normally, appends to the
accumulator a sublist of the concatenation of that window's pages, every
appended record at or after the cutoff, preserving duplicate-freedom and
counting the appended records in `batchNewRuns`. -/
theorem pageLoop_done_spec (oracle : Oracle) (opts : FetchOpts) (upper : Option Int) :
    ∀ (fuel page : Nat) (st : InnerState) (tr : Traces) (st' : InnerState) (tr' : Traces),
      pageLoop oracle opts upper fuel page st tr = (.done st', tr') →
      ∃ (added : List WorkflowRun) (n : Nat),
        st'.allRuns = st.allRuns ++ added ∧
        st'.seenIds = st.seenIds ++ added.map (fun r => r.id) ∧
        added.Sublist (pagesFrom oracle opts upper page n) ∧
        (∀ r ∈ added, belowSince opts.since r = false) ∧
        (st.seenIds.Nodup → st'.seenIds.Nodup) ∧
        st.batchNewRuns + added.length = st'.batchNewRuns := by
  intro fuel
  induction fuel with
  | zero =>
    intro page st tr st' tr' h
    simp [pageLoop] at h
  | succ fuel ih =>
    intro page st tr st' tr' h
    rw [pageLoop] at h
    cases ho : oracle (mkRequest opts upper page) with
    | err s b => simp [ghFetch, ho] at h
    | ok d =>
      simp only [ghFetch, ho] at h
      obtain ⟨added, e1, e2, e3, e4, e5, _, _, e8⟩ :=
        processRuns_spec opts.since d.workflow_runs (bumpTotals st d.total_count)
      have hpr : pageRuns oracle opts upper page = d.workflow_runs := by
        simp [pageRuns, ho]
      split at h
      · injection h with h1 h2
        injection h1 with h1
        subst h1
        refine ⟨added, 1,
                by simpa [bumpTotals_allRuns] using e1,
                by simpa [bumpTotals_seenIds] using e2,
                by simpa [pagesFrom, hpr] using e3, e4,
                by simpa [bumpTotals_seenIds] using e5,
                by simpa [bumpTotals_batchNewRuns] using e8⟩
      · split at h
        · injection h with h1 h2
          injection h1 with h1
          subst h1
          refine ⟨added, 1,
                  by simpa [bumpTotals_allRuns] using e1,
                  by simpa [bumpTotals_seenIds] using e2,
                  by simpa [pagesFrom, hpr] using e3, e4,
                  by simpa [bumpTotals_seenIds] using e5,
                  by simpa [bumpTotals_batchNewRuns] using e8⟩
        · obtain ⟨added₂, n₂, f1, f2, f3, f4, f5, f6⟩ := ih _ _ _ _ _ h
          refine ⟨added ++ added₂, n₂ + 1, ?_, ?_, ?_, ?_, ?_, ?_⟩
          · rw [f1, e1, bumpTotals_allRuns, List.append_assoc]
          · rw [f2, e2, bumpTotals_seenIds, List.map_append, List.append_assoc]
          · simpa [pagesFrom, hpr] using e3.append f3
          · intro r hr
            rcases List.mem_append.mp hr with hr | hr
            · exact e4 r hr
            · exact f4 r hr
          · intro hnd
            apply f5
            simpa [bumpTotals_seenIds] using e5 (by simpa [bumpTotals_seenIds] using hnd)
          · rw [← f6, ← e8, bumpTotals_batchNewRuns, List.length_append]
            omega

/-! ## The window loop: invariants of the final accumulator -/

/-- The controller, whenever it returns a result list, returns one with
pairwise-distinct identifiers, all records at or after the cutoff,
provided the starting accumulator already satisfies both and `seenIds`
mirrors the accumulated ids. -/
theorem fetchRunsLoop_ok_spec (oracle : Oracle) (opts : FetchOpts) (pageFuel : Nat) :
    ∀ (fuel : Nat) (st : OuterState) (tr : Traces) (runs : List WorkflowRun) (tr' : Traces),
      fetchRunsLoop oracle opts pageFuel fuel st tr = (.ok runs, tr') →
      st.seenIds = st.allRuns.map (fun r => r.id) →
      st.seenIds.Nodup →
      (∀ r ∈ st.allRuns, belowSince opts.since r = false) →
      (runs.map (fun r => r.id)).Nodup ∧ (∀ r ∈ runs, belowSince opts.since r = false) := by
  intro fuel
  induction fuel with
  | zero =>
    intro st tr runs tr' h _ _ _
    simp [fetchRunsLoop] at h
  | succ fuel ih =>
    intro st tr runs tr' h hsync hnd hbel
    rw [fetchRunsLoop] at h
    rcases hp : pageLoop oracle opts st.upperBound pageFuel 1 (innerInit st) tr with ⟨out, tr₂⟩
    rw [hp] at h
    cases out with
    | fuel => simp at h
    | failed e => simp at h
    | done st' =>
      obtain ⟨added, n, e1, e2, e3, e4, e5, e6⟩ := pageLoop_done_spec oracle opts
        st.upperBound pageFuel 1 (innerInit st) tr st' tr₂ hp
      simp only [innerInit] at e1 e2 e4 e5 e6
      have hsync' : st'.seenIds = st'.allRuns.map (fun r => r.id) := by
        rw [e1, e2, hsync, List.map_append]
      have hnd' : st'.seenIds.Nodup := e5 hnd
      have hbel' : ∀ r ∈ st'.allRuns, belowSince opts.since r = false := by
        intro r hr
        rw [e1] at hr
        rcases List.mem_append.mp hr with hr | hr
        · exact hbel r hr
        · exact e4 r hr
      dsimp only at h
      have hout : ∀ (hr : st'.allRuns = runs),
          (runs.map (fun r => r.id)).Nodup ∧ ∀ r ∈ runs, belowSince opts.since r = false := by
        intro hr
        subst hr
        exact ⟨by rw [← hsync']; exact hnd', hbel'⟩
      split at h
      · exact hout (by injection h with h1 _; injection h1)
      · split at h
        · exact hout (by injection h with h1 _; injection h1)
        · split at h
          · exact hout (by injection h with h1 _; injection h1)
          · exact ih _ _ _ _ h hsync' hnd' hbel'

/-- C1.  Within a single top-level retrieval, a run identifier appears at
most once in the result of `fetchRuns`: the id list of any returned
result is duplicate-free, for every oracle (any windows, pages and
overlapping identifier sets). -/
theorem fetchRuns_ids_nodup (oracle : Oracle) (opts : FetchOpts) (pageFuel fuel : Nat)
    (runs : List WorkflowRun)
    (h : (fetchRuns oracle opts pageFuel fuel).1 = .ok runs) :
    (runs.map (fun r => r.id)).Nodup := by
  rcases hq : fetchRuns oracle opts pageFuel fuel with ⟨out, tr'⟩
  rw [hq] at h
  simp only at h
  subst h
  rw [fetchRuns] at hq
  exact (fetchRunsLoop_ok_spec oracle opts pageFuel fuel initialState _ runs tr' hq
    (by simp [initialState]) (by simp [initialState]) (by simp [initialState])).1

/-- C2.  Every record returned by `fetchRuns` has `created_at` at or after
the supplied `since` bound, for every oracle. -/
theorem fetchRuns_respects_since (oracle : Oracle) (opts : FetchOpts) (pageFuel fuel : Nat)
    (runs : List WorkflowRun) (s : Int)
    (h : (fetchRuns oracle opts pageFuel fuel).1 = .ok runs)
    (hs : opts.since = some s) :
    ∀ r ∈ runs, s ≤ r.created_at := by
  rcases hq : fetchRuns oracle opts pageFuel fuel with ⟨out, tr'⟩
  rw [hq] at h
  simp only at h
  subst h
  rw [fetchRuns] at hq
  have hbel := (fetchRunsLoop_ok_spec oracle opts pageFuel fuel initialState _ runs tr' hq
    (by simp [initialState]) (by simp [initialState]) (by simp [initialState])).2
  intro r hr
  have := hbel r hr
  rw [hs] at this
  simp [belowSince] at this
  omega

/-! ## Concrete witnesses -/

/-- A run used by the concrete witnesses. -/
def runA : WorkflowRun := ⟨1, 5000⟩

/-- An oracle answering every request with one run and `total_count = 1`. -/
def oracleSimple : Oracle := fun _ => .ok ⟨1, [runA]⟩

/-- A caller with no optional filters. -/
def optsPlain : FetchOpts := { repo := "o/r" }

/-- A caller with a `since` cutoff at timestamp 1000. -/
def optsSince : FetchOpts := { repo := "o/r", since := some 1000 }

/-- Witness for C1 at a concrete oracle: the retrieval succeeds and the
returned id list is duplicate-free. -/
theorem fetchRuns_ids_nodup_witness :
    ((fetchRuns oracleSimple optsPlain 2 2).1 = FetchOutcome.ok [runA]) ∧
      (([runA].map (fun r => r.id)).Nodup) :=
  ⟨by decide, fetchRuns_ids_nodup oracleSimple optsPlain 2 2 [runA] (by decide)⟩

/-- Witness for C2 at a concrete oracle: the retrieval succeeds under a
`since` bound and every returned record is at or after it. -/
theorem fetchRuns_respects_since_witness :
    ((fetchRuns oracleSimple optsSince 2 2).1 = FetchOutcome.ok [runA]) ∧
      (optsSince.since = some 1000) ∧ (∀ r ∈ [runA], (1000 : Int) ≤ r.created_at) :=
  ⟨by decide, by decide,
    fetchRuns_respects_since oracleSimple optsSince 2 2 [runA] 1000 (by decide) (by decide)⟩

/-! ## The oldest-timestamp scan -/

theorem oldestTimeFrom_some (l : List WorkflowRun) :
    ∀ t : Int, ∃ m, oldestTimeFrom (some t) l = some m := by
  induction l with
  | nil => exact fun t => ⟨t, rfl⟩
  | cons r rest ih =>
    intro t
    by_cases h : r.created_at < t
    · simpa [oldestTimeFrom, h] using ih r.created_at
    · simpa [oldestTimeFrom, h] using ih t

theorem oldestTime_some (l : List WorkflowRun) (h : l ≠ []) :
    ∃ m, oldestTime l = some m := by
  match l with
  | [] => exact absurd rfl h
  | r :: rest => simpa [oldestTime, oldestTimeFrom] using oldestTimeFrom_some rest r.created_at

theorem oldestTimeFrom_le (l : List WorkflowRun) :
    ∀ t m : Int, oldestTimeFrom (some t) l = some m →
      m ≤ t ∧ ∀ r ∈ l, m ≤ r.created_at := by
  induction l with
  | nil =>
    intro t m h
    simp [oldestTimeFrom] at h
    simp [h]
  | cons r rest ih =>
    intro t m h
    by_cases hlt : r.created_at < t
    · simp only [oldestTimeFrom, hlt, if_pos] at h
      obtain ⟨h1, h2⟩ := ih r.created_at m h
      refine ⟨by omega, ?_⟩
      intro x hx
      rcases List.mem_cons.mp hx with hx | hx
      · rw [hx]; exact h1
      · exact h2 x hx
    · simp only [oldestTimeFrom, hlt, if_neg] at h
      obtain ⟨h1, h2⟩ := ih t m h
      refine ⟨h1, ?_⟩
      intro x hx
      rcases List.mem_cons.mp hx with hx | hx
      · rw [hx]; omega
      · exact h2 x hx

theorem oldestTimeFrom_mem (l : List WorkflowRun) :
    ∀ t m : Int, oldestTimeFrom (some t) l = some m →
      m = t ∨ ∃ r ∈ l, r.created_at = m := by
  induction l with
  | nil =>
    intro t m h
    simp [oldestTimeFrom] at h
    exact Or.inl h.symm
  | cons r rest ih =>
    intro t m h
    by_cases hlt : r.created_at < t
    · simp only [oldestTimeFrom, hlt, if_pos] at h
      rcases ih r.created_at m h with h1 | ⟨x, hx, hxm⟩
      · exact Or.inr ⟨r, List.mem_cons_self .., h1.symm⟩
      · exact Or.inr ⟨x, List.mem_cons_of_mem _ hx, hxm⟩
    · simp only [oldestTimeFrom, hlt, if_neg] at h
      rcases ih t m h with h1 | ⟨x, hx, hxm⟩
      · exact Or.inl h1
      · exact Or.inr ⟨x, List.mem_cons_of_mem _ hx, hxm⟩

/-- The scan computes the minimum: it returns a member's timestamp and a
lower bound on every member's timestamp. -/
theorem oldestTime_min (l : List WorkflowRun) (m : Int) (h : oldestTime l = some m) :
    (∃ r ∈ l, r.created_at = m) ∧ ∀ r ∈ l, m ≤ r.created_at := by
  match l with
  | [] => simp [oldestTime, oldestTimeFrom] at h
  | r :: rest =>
    have h' : oldestTimeFrom (some r.created_at) rest = some m := by
      simpa [oldestTime, oldestTimeFrom] using h
    obtain ⟨h1, h2⟩ := oldestTimeFrom_le rest r.created_at m h'
    refine ⟨?_, ?_⟩
    · rcases oldestTimeFrom_mem rest r.created_at m h' with hm | ⟨x, hx, hxm⟩
      · exact ⟨r, List.mem_cons_self .., hm.symm⟩
      · exact ⟨x, List.mem_cons_of_mem _ hx, hxm⟩
    · intro x hx
      rcases List.mem_cons.mp hx with hx | hx
      · rw [hx]; exact h1
      · exact h2 x hx

/-! ## One step of the window loop -/

/-- A window ending with `batchNewRuns > 0` leaves a nonempty accumulator. -/
theorem pageLoop_batch_pos_ne_nil (oracle : Oracle) (opts : FetchOpts) (pageFuel : Nat)
    (st : OuterState) (tr tr' : Traces) (st' : InnerState)
    (hp : pageLoop oracle opts st.upperBound pageFuel 1 (innerInit st) tr = (.done st', tr'))
    (h : 0 < st'.batchNewRuns) : st'.allRuns ≠ [] := by
  obtain ⟨added, n, e1, _, _, _, _, e6⟩ :=
    pageLoop_done_spec oracle opts st.upperBound pageFuel 1 (innerInit st) tr st' tr' hp
  simp only [innerInit] at e6
  intro hnil
  rw [e1] at hnil
  have : added = [] := (List.append_eq_nil.mp hnil).2
  rw [this] at e6
  simp at e6
  omega

/-- The source's decision after one window's page loop, branch by branch:
the two `break` conditions each return the accumulator, and otherwise the
loop continues with the slid upper bound. -/
theorem fetchRunsLoop_step (oracle : Oracle) (opts : FetchOpts) (pageFuel fuel : Nat)
    (st : OuterState) (tr tr' : Traces) (st' : InnerState)
    (hp : pageLoop oracle opts st.upperBound pageFuel 1 (innerInit st) tr = (.done st', tr')) :
    (∀ m : Int, ¬(st'.maxTotalCount ≤ 1000 ∨ st'.hitSinceCutoff = true) →
      st'.batchNewRuns ≠ 0 → oldestTime st'.allRuns = some m →
      fetchRunsLoop oracle opts pageFuel (fuel + 1) st tr =
        fetchRunsLoop oracle opts pageFuel fuel
          { allRuns := st'.allRuns, seenIds := st'.seenIds,
            upperBound := some (m - 1000), overallTotal := st'.overallTotal } tr') ∧
    (st'.maxTotalCount ≤ 1000 ∨ st'.hitSinceCutoff = true →
      fetchRunsLoop oracle opts pageFuel (fuel + 1) st tr = (.ok st'.allRuns, tr')) ∧
    (st'.batchNewRuns = 0 →
      fetchRunsLoop oracle opts pageFuel (fuel + 1) st tr = (.ok st'.allRuns, tr')) := by
  refine ⟨?_, ?_, ?_⟩
  · intro m hA hB hm
    rw [fetchRunsLoop, hp]
    dsimp only
    rw [if_neg hA, if_neg hB, hm]
  · intro hA
    rw [fetchRunsLoop, hp]
    dsimp only
    rw [if_pos hA]
  · intro hB
    rw [fetchRunsLoop, hp]
    dsimp only
    by_cases hA : st'.maxTotalCount ≤ 1000 ∨ st'.hitSinceCutoff = true
    · rw [if_pos hA]
    · rw [if_neg hA, if_pos hB]

/-- C3.  After a window's page loop finishes, the controller slides the
window — continues with a further window iteration on a narrowed upper
bound — exactly when the best-known total exceeds 1000, the loop did not
stop on the `since` cutoff, and the window contributed at least one new
record; in every other case it terminates immediately, returning the
accumulator built so far. -/
theorem fetchRuns_slide_iff (oracle : Oracle) (opts : FetchOpts) (pageFuel fuel : Nat)
    (st : OuterState) (tr tr' : Traces) (st' : InnerState)
    (hp : pageLoop oracle opts st.upperBound pageFuel 1 (innerInit st) tr = (.done st', tr')) :
    (1000 < st'.maxTotalCount ∧ st'.hitSinceCutoff = false ∧ 0 < st'.batchNewRuns →
      ∃ m, oldestTime st'.allRuns = some m ∧
        fetchRunsLoop oracle opts pageFuel (fuel + 1) st tr =
          fetchRunsLoop oracle opts pageFuel fuel
            { allRuns := st'.allRuns, seenIds := st'.seenIds,
              upperBound := some (m - 1000), overallTotal := st'.overallTotal } tr') ∧
    (¬(1000 < st'.maxTotalCount ∧ st'.hitSinceCutoff = false ∧ 0 < st'.batchNewRuns) →
      fetchRunsLoop oracle opts pageFuel (fuel + 1) st tr = (.ok st'.allRuns, tr')) := by
  obtain ⟨hslide, hbreak₁, hbreak₂⟩ :=
    fetchRunsLoop_step oracle opts pageFuel fuel st tr tr' st' hp
  constructor
  · rintro ⟨h1, h2, h3⟩
    obtain ⟨m, hm⟩ := oldestTime_some st'.allRuns
      (pageLoop_batch_pos_ne_nil oracle opts pageFuel st tr tr' st' hp h3)
    exact ⟨m, hm, hslide m (by simp [h2]; omega) (by omega) hm⟩
  · intro hneg
    by_cases hA : st'.maxTotalCount ≤ 1000 ∨ st'.hitSinceCutoff = true
    · exact hbreak₁ hA
    · refine hbreak₂ ?_
      rw [not_or, Bool.not_eq_true] at hA
      by_contra hB
      exact hneg ⟨by omega, hA.2, by omega⟩

/-- C4.  Whenever the controller slides the window, the next window's
upper bound is the oldest `created_at` among all records accumulated so
far — a timestamp attained by an accumulated record and below every
accumulated record's timestamp — minus exactly one second (1000 ms). -/
theorem fetchRuns_slide_upper_bound (oracle : Oracle) (opts : FetchOpts) (pageFuel fuel : Nat)
    (st : OuterState) (tr tr' : Traces) (st' : InnerState)
    (hp : pageLoop oracle opts st.upperBound pageFuel 1 (innerInit st) tr = (.done st', tr'))
    (h1 : 1000 < st'.maxTotalCount) (h2 : st'.hitSinceCutoff = false)
    (h3 : 0 < st'.batchNewRuns) :
    ∃ m, oldestTime st'.allRuns = some m ∧
      (∃ r ∈ st'.allRuns, r.created_at = m) ∧
      (∀ r ∈ st'.allRuns, m ≤ r.created_at) ∧
      fetchRunsLoop oracle opts pageFuel (fuel + 1) st tr =
        fetchRunsLoop oracle opts pageFuel fuel
          { allRuns := st'.allRuns, seenIds := st'.seenIds,
            upperBound := some (m - 1000), overallTotal := st'.overallTotal } tr' := by
  obtain ⟨hslide, _, _⟩ := fetchRunsLoop_step oracle opts pageFuel fuel st tr tr' st' hp
  obtain ⟨m, hm⟩ := oldestTime_some st'.allRuns
    (pageLoop_batch_pos_ne_nil oracle opts pageFuel st tr tr' st' hp h3)
  obtain ⟨hmem, hle⟩ := oldestTime_min st'.allRuns m hm
  exact ⟨m, hm, hmem, hle, hslide m (by simp [h2]; omega) (by omega) hm⟩

/-- A run created at timestamp 90000, for the sliding witnesses. -/
def runB : WorkflowRun := ⟨2, 90000⟩

/-- An oracle whose unbounded window reports 1001 matches with one short
page, forcing exactly one window slide, and whose bounded windows are
empty. -/
def oracleSlide : Oracle := fun req =>
  if req.upper = none then .ok ⟨1001, [runB]⟩ else .ok ⟨0, []⟩

/-- The inner state after the first window of `oracleSlide`. -/
def stSlide : InnerState :=
  { allRuns := [runB], seenIds := [2], overallTotal := 1001, maxTotalCount := 1001,
    batchNewRuns := 1, batchSkipped := 0, hitSinceCutoff := false }

/-- The traces after the first window of `oracleSlide`. -/
def trSlide : Traces :=
  { requests := [mkRequest optsPlain none 1], progress := [(0, 1001)] }

/-- Witness for C3 at a concrete oracle: the first window saturates the
cap and the controller continues with a further window iteration. -/
theorem fetchRuns_slide_iff_witness :
    ∃ m, oldestTime stSlide.allRuns = some m ∧
      fetchRunsLoop oracleSlide optsPlain 2 2 initialState { requests := [], progress := [] } =
        fetchRunsLoop oracleSlide optsPlain 2 1
          { allRuns := stSlide.allRuns, seenIds := stSlide.seenIds,
            upperBound := some (m - 1000), overallTotal := stSlide.overallTotal } trSlide :=
  (fetchRuns_slide_iff oracleSlide optsPlain 2 1 initialState
    { requests := [], progress := [] } trSlide stSlide (by decide)).1 (by decide)

/-- Witness for C4 at a concrete oracle: the slid upper bound is the
oldest accumulated timestamp minus one second. -/
theorem fetchRuns_slide_upper_bound_witness :
    ∃ m, oldestTime stSlide.allRuns = some m ∧
      (∃ r ∈ stSlide.allRuns, r.created_at = m) ∧
      (∀ r ∈ stSlide.allRuns, m ≤ r.created_at) ∧
      fetchRunsLoop oracleSlide optsPlain 2 2 initialState { requests := [], progress := [] } =
        fetchRunsLoop oracleSlide optsPlain 2 1
          { allRuns := stSlide.allRuns, seenIds := stSlide.seenIds,
            upperBound := some (m - 1000), overallTotal := stSlide.overallTotal } trSlide :=
  fetchRuns_slide_upper_bound oracleSlide optsPlain 2 1 initialState
    { requests := [], progress := [] } trSlide stSlide (by decide) (by decide) (by decide)
      (by decide)

/-! ## The running maximum of reported totals -/

theorem if_gt_eq_max (m t : Nat) : (if t > m then t else m) = max m t := by
  rcases le_or_lt t m with h | h
  · rw [if_neg (by omega), Nat.max_eq_left h]
  · rw [if_pos h, Nat.max_eq_right (le_of_lt h)]

/-- C8.  After each page of a window the tracked `maxTotalCount` is the
running maximum of the `total_count` values reported by the pages
requested so far in that window (folded from the value at entry, which is
0 at the window's start), never the last-seen value; the requests issued
are exactly the consecutive pages. -/
theorem pageLoop_maxTotalCount (oracle : Oracle) (opts : FetchOpts) (upper : Option Int) :
    ∀ (fuel page : Nat) (st : InnerState) (tr : Traces) (st' : InnerState) (tr' : Traces),
      pageLoop oracle opts upper fuel page st tr = (.done st', tr') →
      ∃ k, 0 < k ∧
        tr'.requests = tr.requests ++ pageRequests opts upper page k ∧
        st'.maxTotalCount = (pageTotals oracle opts upper page k).foldl max st.maxTotalCount := by
  intro fuel
  induction fuel with
  | zero =>
    intro page st tr st' tr' h
    simp [pageLoop] at h
  | succ fuel ih =>
    intro page st tr st' tr' h
    rw [pageLoop] at h
    cases ho : oracle (mkRequest opts upper page) with
    | err s b => simp [ghFetch, ho] at h
    | ok d =>
      simp only [ghFetch, ho] at h
      obtain ⟨_, _, _, _, _, _, e6, _, _⟩ :=
        processRuns_spec opts.since d.workflow_runs (bumpTotals st d.total_count)
      have htot : pageTotal oracle opts upper page = d.total_count := by
        simp [pageTotal, ho]
      have hmax : (processRuns opts.since d.workflow_runs
          (bumpTotals st d.total_count)).maxTotalCount = max st.maxTotalCount d.total_count := by
        rw [e6]
        show (if d.total_count > st.maxTotalCount then d.total_count else st.maxTotalCount) = _
        exact if_gt_eq_max st.maxTotalCount d.total_count
      split at h
      · injection h with h1 h2
        injection h1 with h1
        subst h1
        subst h2
        exact ⟨1, by omega, rfl, by simp [pageRequests, pageTotals, hmax, htot]⟩
      · split at h
        · injection h with h1 h2
          injection h1 with h1
          subst h1
          subst h2
          exact ⟨1, by omega, rfl, by simp [pageRequests, pageTotals, hmax, htot]⟩
        · obtain ⟨k, hk, f1, f2⟩ := ih _ _ _ _ _ h
          refine ⟨k + 1, by omega, ?_, ?_⟩
          · rw [f1]
            simp [pageRequests, List.append_assoc]
          · rw [f2, hmax]
            simp [pageTotals, htot]

/-- A run older than the witnesses' `since` cutoff of 1000. -/
def runOld : WorkflowRun := ⟨4, 500⟩

/-- An oracle whose first page reports `total_count = 500` with a full
page and whose later pages report `total_count = 300` with a short page:
the tracked value must be the maximum 500, not the last-seen 300. -/
def oracleTwoPages : Oracle := fun req =>
  if req.page = 1 then .ok ⟨500, List.replicate 100 runA⟩ else .ok ⟨300, []⟩

/-- The inner state after the two pages of `oracleTwoPages`. -/
def stMax : InnerState :=
  { allRuns := [runA], seenIds := [1], overallTotal := 500, maxTotalCount := 500,
    batchNewRuns := 1, batchSkipped := 99, hitSinceCutoff := false }

/-- The traces after the two pages of `oracleTwoPages`. -/
def trMax : Traces :=
  { requests := [mkRequest optsPlain none 1, mkRequest optsPlain none 2]
    progress := [(0, 500), (1, 500)] }

/-- Witness for C8 at a concrete oracle whose per-page totals are 500
then 300: the tracked value ends at the maximum 500. -/
theorem pageLoop_maxTotalCount_witness :
    ∃ k, 0 < k ∧
      trMax.requests = pageRequests optsPlain none 1 k ∧
      stMax.maxTotalCount = (pageTotals oracleTwoPages optsPlain none 1 k).foldl max 0 :=
  pageLoop_maxTotalCount oracleTwoPages optsPlain none 3 1 (innerInit initialState)
    { requests := [], progress := [] } stMax trMax (by decide)

/-! ## The mid-page since cutoff -/

/-- Scanning a page that contains a record older than the cutoff (all
records before it at or after the cutoff) merges exactly the records
before it and raises `hitSinceCutoff`. -/
theorem processRuns_cutoff (since : Option Int) (s : Int) (hs : since = some s)
    (pre : List WorkflowRun) (bad : WorkflowRun) (post : List WorkflowRun)
    (hpre : ∀ r ∈ pre, ¬ r.created_at < s) (hbad : bad.created_at < s) :
    ∀ st : InnerState,
      processRuns since (pre ++ bad :: post) st =
        { processRuns since pre st with hitSinceCutoff := true } := by
  induction pre with
  | nil =>
    intro st
    have hb : belowSince since bad = true := by simp [belowSince, hs, hbad]
    simp [processRuns, hb]
  | cons r pre' ih =>
    intro st
    have hr : belowSince since r = false := by
      simp [belowSince, hs]
      exact not_lt.mp (hpre r (List.mem_cons_self ..))
    have ih' := ih (fun x hx => hpre x (List.mem_cons_of_mem _ hx))
    by_cases hc : st.seenIds.contains r.id = true
    · simp only [List.cons_append, processRuns, hr, Bool.false_eq_true, if_false, hc, if_true]
      exact ih' _
    · rw [Bool.not_eq_true] at hc
      simp only [List.cons_append, processRuns, hr, Bool.false_eq_true, if_false, hc, if_true]
      exact ih' _

/-- C6.  When a `since` bound is supplied and a page contains a record
strictly older than it (every earlier record of the page at or after it):
the page loop merges only the records before that one, raises the cutoff
flag, issues no further request for that window, and hands back exactly
one new request and one progress call; and any window whose page loop
ended with the cutoff flag raised terminates the whole controller,
returning the accumulator. -/
theorem fetchRuns_since_cutoff (oracle : Oracle) (opts : FetchOpts) (s : Int)
    (upper : Option Int) (page : Nat) (d : WorkflowRunsResponse)
    (pre : List WorkflowRun) (bad : WorkflowRun) (post : List WorkflowRun)
    (hs : opts.since = some s)
    (ho : oracle (mkRequest opts upper page) = .ok d)
    (hd : d.workflow_runs = pre ++ bad :: post)
    (hpre : ∀ r ∈ pre, ¬ r.created_at < s)
    (hbad : bad.created_at < s) :
    (∀ (pf : Nat) (st : InnerState) (tr : Traces),
      pageLoop oracle opts upper (pf + 1) page st tr =
        (.done { processRuns opts.since pre (bumpTotals st d.total_count) with
                   hitSinceCutoff := true },
         { requests := tr.requests ++ [mkRequest opts upper page]
           progress := tr.progress ++
             [(st.allRuns.length, (bumpTotals st d.total_count).overallTotal)] })) ∧
    (∀ (pf f : Nat) (st₀ : OuterState) (tr₀ tr₁ : Traces) (st₁ : InnerState),
      pageLoop oracle opts st₀.upperBound pf 1 (innerInit st₀) tr₀ = (.done st₁, tr₁) →
      st₁.hitSinceCutoff = true →
      fetchRunsLoop oracle opts pf (f + 1) st₀ tr₀ = (.ok st₁.allRuns, tr₁)) := by
  constructor
  · intro pf st tr
    rw [pageLoop]
    simp only [ghFetch, ho]
    rw [hd, processRuns_cutoff opts.since s hs pre bad post hpre hbad]
    simp
  · intro pf f st₀ tr₀ tr₁ st₁ hp hcut
    exact (fetchRunsLoop_step oracle opts pf f st₀ tr₀ tr₁ st₁ hp).2.1 (Or.inr hcut)

/-- An oracle whose page holds a record at 5000 followed by one at 500,
straddling the cutoff 1000 of `optsSince`. -/
def oracleCutoff : Oracle := fun _ => .ok ⟨2, [runA, runOld]⟩

/-- The inner state after the cutoff page of `oracleCutoff`. -/
def stCut : InnerState :=
  { allRuns := [runA], seenIds := [1], overallTotal := 2, maxTotalCount := 2,
    batchNewRuns := 1, batchSkipped := 0, hitSinceCutoff := true }

/-- The traces after the cutoff page of `oracleCutoff`. -/
def trCut : Traces :=
  { requests := [mkRequest optsSince none 1], progress := [(0, 2)] }

/-- Witness for C6 on the spec's example shape: a page
`[run@5000, run@500]` under `since = 1000` merges only the first run,
stops after one request, and the controller returns `[run@5000]`. -/
theorem fetchRuns_since_cutoff_witness :
    (pageLoop oracleCutoff optsSince none 2 1 (innerInit initialState)
        { requests := [], progress := [] } = (.done stCut, trCut)) ∧
    (fetchRunsLoop oracleCutoff optsSince 2 1 initialState
        { requests := [], progress := [] } = (.ok [runA], trCut)) :=
  ⟨(fetchRuns_since_cutoff oracleCutoff optsSince 1000 none 1 ⟨2, [runA, runOld]⟩
      [runA] runOld [] (by decide) (by decide) (by decide) (by decide) (by decide)).1
      1 (innerInit initialState) { requests := [], progress := [] },
   (fetchRuns_since_cutoff oracleCutoff optsSince 1000 none 1 ⟨2, [runA, runOld]⟩
      [runA] runOld [] (by decide) (by decide) (by decide) (by decide) (by decide)).2
      2 0 initialState { requests := [], progress := [] } trCut stCut (by decide) (by decide)⟩

/-! ## The progress observer -/

/-- 1 for an outcome that aborted on a transport error (where the failing
page's observer call never happens), else 0. -/
def failWeight : PageOutcome → Nat
  | .failed _ => 1
  | _ => 0

/-- 1 for a retrieval that aborted on a transport error, else 0. -/
def failWeightOuter : FetchOutcome → Nat
  | .apiError _ => 1
  | _ => 0

/-- The page loop only ever appends to the progress log. -/
theorem pageLoop_progress_mono (oracle : Oracle) (opts : FetchOpts) (upper : Option Int) :
    ∀ (fuel page : Nat) (st : InnerState) (tr : Traces),
      ∃ tl, (pageLoop oracle opts upper fuel page st tr).2.progress = tr.progress ++ tl := by
  intro fuel
  induction fuel with
  | zero => exact fun page st tr => ⟨[], by simp [pageLoop]⟩
  | succ fuel ih =>
    intro page st tr
    rw [pageLoop]
    cases ho : oracle (mkRequest opts upper page) with
    | err s b => exact ⟨[], by simp [ghFetch, ho]⟩
    | ok d =>
      simp only [ghFetch, ho]
      split
      · exact ⟨[(st.allRuns.length, (bumpTotals st d.total_count).overallTotal)], by simp⟩
      · split
        · exact ⟨[(st.allRuns.length, (bumpTotals st d.total_count).overallTotal)], by simp⟩
        · obtain ⟨tl, htl⟩ := ih (page + 1)
            (processRuns opts.since d.workflow_runs (bumpTotals st d.total_count))
            { requests := tr.requests ++ [mkRequest opts upper page]
              progress := tr.progress ++
                [(st.allRuns.length, (bumpTotals st d.total_count).overallTotal)] }
          refine ⟨(st.allRuns.length, (bumpTotals st d.total_count).overallTotal) :: tl, ?_⟩
          rw [htl]
          simp

/-- Every request of the page loop is matched by exactly one observer
call, except the failing request of an aborted window. -/
theorem pageLoop_counts (oracle : Oracle) (opts : FetchOpts) (upper : Option Int) :
    ∀ (fuel page : Nat) (st : InnerState) (tr : Traces),
      (pageLoop oracle opts upper fuel page st tr).2.progress.length +
          failWeight (pageLoop oracle opts upper fuel page st tr).1 +
          tr.requests.length =
        (pageLoop oracle opts upper fuel page st tr).2.requests.length +
          tr.progress.length := by
  intro fuel
  induction fuel with
  | zero => intro page st tr; simp only [pageLoop, failWeight]; omega
  | succ fuel ih =>
    intro page st tr
    rw [pageLoop]
    cases ho : oracle (mkRequest opts upper page) with
    | err s b => simp only [ghFetch, ho, failWeight, List.length_append, List.length_singleton]; omega
    | ok d =>
      simp only [ghFetch, ho]
      split
      · simp only [failWeight, List.length_append, List.length_singleton]; omega
      · split
        · simp only [failWeight, List.length_append, List.length_singleton]; omega
        · have := ih (page + 1)
            (processRuns opts.since d.workflow_runs (bumpTotals st d.total_count))
            { requests := tr.requests ++ [mkRequest opts upper page]
              progress := tr.progress ++
                [(st.allRuns.length, (bumpTotals st d.total_count).overallTotal)] }
          simp only [List.length_append, List.length_cons, List.length_nil] at this
          omega

/-- The per-request observer-call accounting, lifted to the whole
controller. -/
theorem fetchRunsLoop_counts (oracle : Oracle) (opts : FetchOpts) (pageFuel : Nat) :
    ∀ (fuel : Nat) (st : OuterState) (tr : Traces),
      (fetchRunsLoop oracle opts pageFuel fuel st tr).2.progress.length +
          failWeightOuter (fetchRunsLoop oracle opts pageFuel fuel st tr).1 +
          tr.requests.length =
        (fetchRunsLoop oracle opts pageFuel fuel st tr).2.requests.length +
          tr.progress.length := by
  intro fuel
  induction fuel with
  | zero => intro st tr; simp [fetchRunsLoop, failWeightOuter]; omega
  | succ fuel ih =>
    intro st tr
    have hpl := pageLoop_counts oracle opts st.upperBound pageFuel 1 (innerInit st) tr
    rw [fetchRunsLoop]
    rcases hp : pageLoop oracle opts st.upperBound pageFuel 1 (innerInit st) tr with ⟨out, tr₂⟩
    rw [hp] at hpl
    cases out with
    | fuel => simpa [failWeight, failWeightOuter] using hpl
    | failed e => simpa [failWeight, failWeightOuter] using hpl
    | done st' =>
      dsimp only
      simp only [failWeight] at hpl
      split
      · simpa [failWeightOuter] using hpl
      · split
        · simpa [failWeightOuter] using hpl
        · split
          · simpa [failWeightOuter] using hpl
          · rename_i m hm
            have hrec := ih ⟨st'.allRuns, st'.seenIds, some (m - 1000), st'.overallTotal⟩ tr₂
            omega

/-- C9 (amended).  After each successfully fetched page the observer is
invoked exactly once; its first argument is the number of records
accumulated before that page's records are merged (the source calls
`onProgress` with `allRuns.length` before the merge loop), and its second
argument is the best-known overall total including that page's reported
`total_count`.  Exactly-once is witnessed by the accounting: in a
retrieval that returns a result, the number of observer calls equals the
number of requests issued. -/
theorem fetchRuns_progress (oracle : Oracle) (opts : FetchOpts) :
    (∀ (upper : Option Int) (page : Nat) (d : WorkflowRunsResponse),
      oracle (mkRequest opts upper page) = .ok d →
      ∀ (fuel : Nat) (st : InnerState) (tr : Traces), ∃ tl,
        (pageLoop oracle opts upper (fuel + 1) page st tr).2.progress =
          tr.progress ++ (st.allRuns.length, (bumpTotals st d.total_count).overallTotal) :: tl) ∧
    (∀ (pageFuel fuel : Nat) (runs : List WorkflowRun) (tr' : Traces),
      fetchRuns oracle opts pageFuel fuel = (.ok runs, tr') →
      tr'.progress.length = tr'.requests.length) := by
  constructor
  · intro upper page d ho fuel st tr
    rw [pageLoop]
    simp only [ghFetch, ho]
    split
    · exact ⟨[], by simp⟩
    · split
      · exact ⟨[], by simp⟩
      · obtain ⟨tl, htl⟩ := pageLoop_progress_mono oracle opts upper fuel (page + 1)
          (processRuns opts.since d.workflow_runs (bumpTotals st d.total_count))
          { requests := tr.requests ++ [mkRequest opts upper page]
            progress := tr.progress ++
              [(st.allRuns.length, (bumpTotals st d.total_count).overallTotal)] }
        refine ⟨tl, ?_⟩
        rw [htl]
        simp
  · intro pageFuel fuel runs tr' h
    have := fetchRunsLoop_counts oracle opts pageFuel fuel initialState
      { requests := [], progress := [] }
    rw [fetchRuns] at h
    rw [h] at this
    simpa [failWeightOuter] using this

/-- Counterexample for C9 as stated: with a single one-record page, the
single observer call reports `(0, 1)` — the count excluding that page's
merged record — although a count including it would be 1. -/
theorem fetchRuns_progress_counterexample :
    (fetchRuns oracleSimple optsPlain 2 2).2.progress = [(0, 1)] ∧
    (fetchRuns oracleSimple optsPlain 2 2).1 = .ok [runA] ∧
    ((0 : Nat), (1 : Nat)) ≠ (([runA] : List WorkflowRun).length, 1) := by
  refine ⟨by decide, by decide, by decide⟩

/-- Witness for the amended C9 at a concrete oracle: the first page's
observer call carries the pre-merge count 0 and total 1, and the
successful retrieval has as many observer calls as requests. -/
theorem fetchRuns_progress_witness :
    (∃ tl, (pageLoop oracleSimple optsPlain none 2 1 (innerInit initialState)
        { requests := [], progress := [] }).2.progress =
      (0, (bumpTotals (innerInit initialState) 1).overallTotal) :: tl) ∧
    ((fetchRuns oracleSimple optsPlain 2 2).2.progress.length =
      (fetchRuns oracleSimple optsPlain 2 2).2.requests.length) :=
  ⟨(fetchRuns_progress oracleSimple optsPlain).1 none 1 ⟨1, [runA]⟩ (by decide) 1
      (innerInit initialState) { requests := [], progress := [] },
   (fetchRuns_progress oracleSimple optsPlain).2 2 2 [runA]
      (fetchRuns oracleSimple optsPlain 2 2).2 (by decide)⟩

/-! ## Transport errors abort the retrieval -/

theorem append_singleton_inj {α : Type} (l₁ l₂ : List α) (a b : α)
    (h : l₁ ++ [a] = l₂ ++ [b]) : l₁ = l₂ ∧ a = b := by
  have h' := congrArg List.reverse h
  simp only [List.reverse_append, List.reverse_cons, List.reverse_nil, List.nil_append,
    List.singleton_append] at h'
  injection h' with h1 h2
  exact ⟨List.reverse_injective h2, h1⟩

/-- The page loop issues consecutive requests; when it fails, the failing
request is the last one issued, every earlier one succeeded, and the
raised error is built from the failing response and that request's path;
when it does not fail, every issued request succeeded. -/
theorem pageLoop_requests_spec (oracle : Oracle) (opts : FetchOpts) (upper : Option Int) :
    ∀ (fuel page : Nat) (st : InnerState) (tr : Traces) (out : PageOutcome) (tr' : Traces),
      pageLoop oracle opts upper fuel page st tr = (out, tr') →
      ∃ newReqs, tr'.requests = tr.requests ++ newReqs ∧
        (∀ e, out = .failed e →
          ∃ reqs req s body, newReqs = reqs ++ [req] ∧
            (∀ r ∈ reqs, ∃ d, oracle r = .ok d) ∧
            oracle req = .err s body ∧ e = mkGitHubApiError s body req.path) ∧
        ((∀ e, out ≠ .failed e) → ∀ r ∈ newReqs, ∃ d, oracle r = .ok d) := by
  intro fuel
  induction fuel with
  | zero =>
    intro page st tr out tr' h
    simp only [pageLoop] at h
    injection h with h1 h2
    subst h1
    subst h2
    exact ⟨[], by simp, fun e he => absurd he (by simp), fun _ r hr => absurd hr (by simp)⟩
  | succ fuel ih =>
    intro page st tr out tr' h
    rw [pageLoop] at h
    cases ho : oracle (mkRequest opts upper page) with
    | err s b =>
      simp only [ghFetch, ho] at h
      injection h with h1 h2
      subst h1
      subst h2
      refine ⟨[mkRequest opts upper page], by simp, ?_, ?_⟩
      · intro e he
        injection he with he
        exact ⟨[], mkRequest opts upper page, s, b, by simp, by simp, ho, he.symm⟩
      · intro hne
        exact absurd rfl (hne (mkGitHubApiError s b (mkRequest opts upper page).path))
    | ok d =>
      simp only [ghFetch, ho] at h
      split at h
      · injection h with h1 h2
        subst h1
        subst h2
        refine ⟨[mkRequest opts upper page], by simp, fun e he => absurd he (by simp), ?_⟩
        intro _ r hr
        rw [List.mem_singleton.mp hr]
        exact ⟨d, ho⟩
      · split at h
        · injection h with h1 h2
          subst h1
          subst h2
          refine ⟨[mkRequest opts upper page], by simp, fun e he => absurd he (by simp), ?_⟩
          intro _ r hr
          rw [List.mem_singleton.mp hr]
          exact ⟨d, ho⟩
        · obtain ⟨newReqs, g1, g2, g3⟩ := ih _ _ _ _ _ h
          refine ⟨mkRequest opts upper page :: newReqs, ?_, ?_, ?_⟩
          · rw [g1]; simp
          · intro e he
            obtain ⟨reqs, req, s, body, f1, f2, f3, f4⟩ := g2 e he
            refine ⟨mkRequest opts upper page :: reqs, req, s, body, by rw [f1]; simp, ?_, f3, f4⟩
            intro r hr
            rcases List.mem_cons.mp hr with hr | hr
            · rw [hr]; exact ⟨d, ho⟩
            · exact f2 r hr
          · intro hne r hr
            rcases List.mem_cons.mp hr with hr | hr
            · rw [hr]; exact ⟨d, ho⟩
            · exact g3 hne r hr

/-- `pageLoop_requests_spec` lifted to the whole controller. -/
theorem fetchRunsLoop_requests_spec (oracle : Oracle) (opts : FetchOpts) (pageFuel : Nat) :
    ∀ (fuel : Nat) (st : OuterState) (tr : Traces) (out : FetchOutcome) (tr' : Traces),
      fetchRunsLoop oracle opts pageFuel fuel st tr = (out, tr') →
      ∃ newReqs, tr'.requests = tr.requests ++ newReqs ∧
        (∀ e, out = .apiError e →
          ∃ reqs req s body, newReqs = reqs ++ [req] ∧
            (∀ r ∈ reqs, ∃ d, oracle r = .ok d) ∧
            oracle req = .err s body ∧ e = mkGitHubApiError s body req.path) ∧
        ((∀ e, out ≠ .apiError e) → ∀ r ∈ newReqs, ∃ d, oracle r = .ok d) := by
  intro fuel
  induction fuel with
  | zero =>
    intro st tr out tr' h
    simp only [fetchRunsLoop] at h
    injection h with h1 h2
    subst h1
    subst h2
    exact ⟨[], by simp, fun e he => absurd he (by simp), fun _ r hr => absurd hr (by simp)⟩
  | succ fuel ih =>
    intro st tr out tr' h
    rw [fetchRunsLoop] at h
    rcases hp : pageLoop oracle opts st.upperBound pageFuel 1 (innerInit st) tr with ⟨pout, tr₂⟩
    rw [hp] at h
    obtain ⟨newReqs, g1, g2, g3⟩ := pageLoop_requests_spec oracle opts st.upperBound
      pageFuel 1 (innerInit st) tr pout tr₂ hp
    cases pout with
    | fuel =>
      dsimp only at h
      injection h with h1 h2
      subst h1
      subst h2
      exact ⟨newReqs, g1, fun e he => absurd he (by simp),
        fun _ => g3 (fun e he => PageOutcome.noConfusion he)⟩
    | failed e =>
      dsimp only at h
      injection h with h1 h2
      subst h1
      subst h2
      refine ⟨newReqs, g1, ?_, ?_⟩
      · intro e' he'
        injection he' with he'
        subst he'
        exact g2 e rfl
      · intro hne
        exact absurd rfl (hne e)
    | done st' =>
      dsimp only at h
      have hok : ∀ r ∈ newReqs, ∃ d, oracle r = .ok d :=
        g3 (fun e he => PageOutcome.noConfusion he)
      have hterm : ∀ (hh : (FetchOutcome.ok st'.allRuns, tr₂) = (out, tr')),
          ∃ nr, tr'.requests = tr.requests ++ nr ∧
            (∀ e, out = .apiError e →
              ∃ reqs req s body, nr = reqs ++ [req] ∧
                (∀ r ∈ reqs, ∃ d, oracle r = .ok d) ∧
                oracle req = .err s body ∧ e = mkGitHubApiError s body req.path) ∧
            ((∀ e, out ≠ .apiError e) → ∀ r ∈ nr, ∃ d, oracle r = .ok d) := by
        intro hh
        injection hh with h1 h2
        subst h1
        subst h2
        exact ⟨newReqs, g1, fun e he => absurd he (by simp), fun _ => hok⟩
      split at h
      · exact hterm h
      · split at h
        · exact hterm h
        · split at h
          · exact hterm h
          · obtain ⟨newReqs₂, k1, k2, k3⟩ := ih _ _ _ _ h
            refine ⟨newReqs ++ newReqs₂, by rw [k1, g1, List.append_assoc], ?_, ?_⟩
            · intro e he
              obtain ⟨reqs, req, s, body, f1, f2, f3, f4⟩ := k2 e he
              refine ⟨newReqs ++ reqs, req, s, body,
                by rw [f1, List.append_assoc], ?_, f3, f4⟩
              intro r hr
              rcases List.mem_append.mp hr with hr | hr
              · exact hok r hr
              · exact f2 r hr
            · intro hne r hr
              rcases List.mem_append.mp hr with hr | hr
              · exact hok r hr
              · exact k3 hne r hr

/-- C7.  The retrieval ends in a `GitHubApiError` exactly when the last
request issued got a non-2xx response, with every earlier request having
succeeded (the failure aborts both loops at once: nothing is requested
after it, so there is no retry), and the error carries that response's
status, its body text (in the message) and the failing request's path.
The error outcome carries no run list: the accumulator is discarded. -/
theorem fetchRuns_error_propagation (oracle : Oracle) (opts : FetchOpts)
    (pageFuel fuel : Nat) (e : GitHubApiError) :
    (fetchRuns oracle opts pageFuel fuel).1 = .apiError e ↔
      ∃ reqs req body,
        (fetchRuns oracle opts pageFuel fuel).2.requests = reqs ++ [req] ∧
        (∀ r ∈ reqs, ∃ d, oracle r = .ok d) ∧
        oracle req = .err e.status body ∧
        e.message = "GitHub API " ++ toString e.status ++ ": " ++ body ∧
        e.path = req.path := by
  rcases hq : fetchRuns oracle opts pageFuel fuel with ⟨out, tr'⟩
  rw [fetchRuns] at hq
  obtain ⟨newReqs, g1, g2, g3⟩ :=
    fetchRunsLoop_requests_spec oracle opts pageFuel fuel initialState
      { requests := [], progress := [] } out tr' hq
  simp only [List.nil_append] at g1
  constructor
  · intro hout
    simp only at hout
    obtain ⟨reqs, req, s, body, f1, f2, f3, f4⟩ := g2 e hout
    refine ⟨reqs, req, body, by rw [g1, f1], f2, ?_, ?_, ?_⟩
    · rw [f4]; exact f3
    · rw [f4]; rfl
    · rw [f4]; rfl
  · rintro ⟨reqs, req, body, f1, f2, f3, f4, f5⟩
    simp only at f1 ⊢
    rw [g1] at f1
    cases out with
    | ok runs =>
      exfalso
      obtain ⟨d, hd⟩ := g3 (by simp) req (by rw [f1]; simp)
      rw [hd] at f3
      exact HttpResponse.noConfusion f3
    | outOfFuel =>
      exfalso
      obtain ⟨d, hd⟩ := g3 (by simp) req (by rw [f1]; simp)
      rw [hd] at f3
      exact HttpResponse.noConfusion f3
    | apiError e' =>
      obtain ⟨reqs₂, req₂, s₂, body₂, k1, k2, k3, k4⟩ := g2 e' rfl
      rw [k1] at f1
      obtain ⟨hr, ha⟩ := append_singleton_inj reqs₂ reqs req₂ req f1
      subst hr
      subst ha
      rw [k3] at f3
      injection f3 with hs hb
      cases e with
      | mk estatus emsg epath =>
        simp only at f4 f5 hs
        subst hs
        subst hb
        rw [k4]
        simp [mkGitHubApiError, f4, f5]

/-- An oracle that always answers 404. -/
def oracleFail : Oracle := fun _ => .err 404 "Not Found"

/-- The error `oracleFail` forces on the first request. -/
def errFail : GitHubApiError :=
  mkGitHubApiError 404 "Not Found" (mkRequest optsPlain none 1).path

/-- Witness for C7 at a concrete oracle: the first request fails with 404
and the retrieval ends in exactly that structured error. -/
theorem fetchRuns_error_propagation_witness :
    ((fetchRuns oracleFail optsPlain 2 2).1 = .apiError errFail) ∧
      (fetchRuns oracleFail optsPlain 2 2).2.requests = [mkRequest optsPlain none 1] :=
  ⟨(fetchRuns_error_propagation oracleFail optsPlain 2 2 errFail).mpr
      ⟨[], mkRequest optsPlain none 1, "Not Found", by decide, by simp, by decide, by decide,
        by decide⟩,
    by decide⟩

/-! ## The since parser -/

/-- `parseInt(match[1], 10)` on the captured digit group. -/
def digitsToNat (ds : List Char) : Nat :=
  ds.foldl (fun a c => a * 10 + (c.toNat - '0'.toNat)) 0

/-- Split a character list into its leading part and final character. -/
def splitLastChar : List Char → Option (List Char × Char)
  | [] => none
  | [c] => some ([], c)
  | c :: rest =>
    match splitLastChar rest with
    | some (ds, u) => some (c :: ds, u)
    | none => none

/-- The regex `^(\d+)([hdw])$` of `parseSince`: the whole string is one or
more digits followed by a unit character. -/
def matchDuration (value : String) : Option (Nat × Char) :=
  match splitLastChar value.data with
  | none => none
  | some (ds, u) =>
    if (u = 'h' ∨ u = 'd' ∨ u = 'w') ∧ ds ≠ [] ∧ ds.all Char.isDigit then
      some (digitsToNat ds, u)
    else none

/-- The duration arithmetic of `parseSince`, at fixed millisecond rates.
The source mutates a `Date` via `setHours`/`setDate`, which agrees with
fixed rates in UTC; at amount 0 — the case verified here — both are the
identity on the timestamp regardless of calendar or timezone, since
`setHours(getHours() - 0)` rewrites a field to its current value. -/
def subDuration (now : Int) (amount : Nat) (unit : Char) : Int :=
  if unit = 'h' then now - amount * 3600000
  else if unit = 'd' then now - amount * 86400000
  else now - amount * (7 * 86400000)

/-- `parseSince`: a duration via the regex, otherwise the `new Date(value)`
fallback (the abstract `parseDate`, `none` standing for `NaN`), and the
input error (`process.exit(2)`) when neither form parses. -/
def parseSince (parseDate : String → Option Int) (now : Int) (value : String) :
    Except String Int :=
  match matchDuration value with
  | some (amount, unit) => .ok (subDuration now amount unit)
  | none =>
    match parseDate value with
    | some d => .ok d
    | none =>
      .error ("Invalid --since value " ++ value ++
        ". Use a duration (7d, 24h, 2w) or date (2026-02-01).")

/-- C10.  `parseSince` accepts zero-amount durations: for each unit,
`"0"` followed by the unit matches the duration regex (so it is not an
input error and the date fallback is never consulted), and the result is
the current moment unchanged. -/
theorem parseSince_zero_duration (parseDate : String → Option Int) (now : Int) :
    parseSince parseDate now "0h" = .ok now ∧
    parseSince parseDate now "0d" = .ok now ∧
    parseSince parseDate now "0w" = .ok now := by
  have h1 : matchDuration "0h" = some (0, 'h') := by decide
  have h2 : matchDuration "0d" = some (0, 'd') := by decide
  have h3 : matchDuration "0w" = some (0, 'w') := by decide
  refine ⟨?_, ?_, ?_⟩
  · simp [parseSince, h1, subDuration]
  · simp [parseSince, h2, subDuration]
  · simp [parseSince, h3, subDuration]

/-! ## Ordering of the final result -/

theorem mem_pagesFrom (oracle : Oracle) (opts : FetchOpts) (upper : Option Int) :
    ∀ (n start : Nat) (r : WorkflowRun),
      r ∈ pagesFrom oracle opts upper start n → ∃ p, r ∈ pageRuns oracle opts upper p := by
  intro n
  induction n with
  | zero =>
    intro start r hr
    simp [pagesFrom] at hr
  | succ n ih =>
    intro start r hr
    rw [pagesFrom] at hr
    rcases List.mem_append.mp hr with hr | hr
    · exact ⟨start, hr⟩
    · exact ih (start + 1) r hr

/-- The controller preserves "sorted newest-first" across windows, given
an oracle that serves each window's pages sorted by `created_at`
descending and honouring the requested time-range filters. -/
theorem fetchRunsLoop_sorted (oracle : Oracle) (opts : FetchOpts)
    (hsorted : ∀ (upper : Option Int) (n : Nat),
      (pagesFrom oracle opts upper 1 n).Pairwise (fun a b => b.created_at ≤ a.created_at))
    (hfilter : ∀ (upper : Option Int) (page : Nat) (r : WorkflowRun),
      r ∈ pageRuns oracle opts upper page →
      (∀ s, opts.since = some s → s ≤ r.created_at) ∧
      (∀ u, upper = some u → r.created_at ≤ u)) (pageFuel : Nat) :
    ∀ (fuel : Nat) (st : OuterState) (tr : Traces) (runs : List WorkflowRun) (tr' : Traces),
      fetchRunsLoop oracle opts pageFuel fuel st tr = (.ok runs, tr') →
      st.allRuns.Pairwise (fun a b => b.created_at ≤ a.created_at) →
      (st.upperBound = none → st.allRuns = []) →
      (∀ u, st.upperBound = some u → ∀ r ∈ st.allRuns, u < r.created_at) →
      runs.Pairwise (fun a b => b.created_at ≤ a.created_at) := by
  intro fuel
  induction fuel with
  | zero =>
    intro st tr runs tr' h _ _ _
    simp [fetchRunsLoop] at h
  | succ fuel ih =>
    intro st tr runs tr' h hsort hnone hupper
    rw [fetchRunsLoop] at h
    rcases hp : pageLoop oracle opts st.upperBound pageFuel 1 (innerInit st) tr with ⟨out, tr₂⟩
    rw [hp] at h
    cases out with
    | fuel => simp at h
    | failed e => simp at h
    | done st' =>
      obtain ⟨added, n, e1, e2, e3, e4, e5, e6⟩ := pageLoop_done_spec oracle opts
        st.upperBound pageFuel 1 (innerInit st) tr st' tr₂ hp
      simp only [innerInit] at e1
      have haddedSorted : added.Pairwise (fun a b => b.created_at ≤ a.created_at) :=
        (hsorted st.upperBound n).sublist e3
      have haddedMem : ∀ r ∈ added, ∃ p, r ∈ pageRuns oracle opts st.upperBound p :=
        fun r hr => mem_pagesFrom oracle opts st.upperBound n 1 r (e3.subset hr)
      have hsort' : st'.allRuns.Pairwise (fun a b => b.created_at ≤ a.created_at) := by
        rw [e1, List.pairwise_append]
        refine ⟨hsort, haddedSorted, ?_⟩
        intro a ha b hb
        cases hub : st.upperBound with
        | none =>
          rw [hnone hub] at ha
          exact absurd ha (List.not_mem_nil a)
        | some u =>
          have hau : u < a.created_at := hupper u hub a ha
          obtain ⟨p, hbp⟩ := haddedMem b hb
          have hbu : b.created_at ≤ u := (hfilter (some u) p b (hub ▸ hbp)).2 u rfl
          omega
      have hupper' : ∀ m, oldestTime st'.allRuns = some m →
          ∀ r ∈ st'.allRuns, m - 1000 < r.created_at := by
        intro m hm r hr
        have := (oldestTime_min st'.allRuns m hm).2 r hr
        omega
      dsimp only at h
      split at h
      · injection h with h1 _
        injection h1 with h1
        rw [← h1]
        exact hsort'
      · split at h
        · injection h with h1 _
          injection h1 with h1
          rw [← h1]
          exact hsort'
        · split at h
          · injection h with h1 _
            injection h1 with h1
            rw [← h1]
            exact hsort'
          · rename_i m hm
            exact ih ⟨st'.allRuns, st'.seenIds, some (m - 1000), st'.overallTotal⟩ tr₂
              runs tr' h hsort' (by simp) (by
                intro u hu r hr
                injection hu with hu
                rw [← hu]
                exact hupper' m hm r hr)

/-- C5.  If the oracle serves every window's records sorted by
`created_at` descending — within and across the pages of one window — and
honours the requested time-range filters, then any result list of
`fetchRuns` is sorted by `created_at` descending, across window merges
included. -/
theorem fetchRuns_sorted (oracle : Oracle) (opts : FetchOpts)
    (hsorted : ∀ (upper : Option Int) (n : Nat),
      (pagesFrom oracle opts upper 1 n).Pairwise (fun a b => b.created_at ≤ a.created_at))
    (hfilter : ∀ (upper : Option Int) (page : Nat) (r : WorkflowRun),
      r ∈ pageRuns oracle opts upper page →
      (∀ s, opts.since = some s → s ≤ r.created_at) ∧
      (∀ u, upper = some u → r.created_at ≤ u)) :
    ∀ (pageFuel fuel : Nat) (runs : List WorkflowRun),
      (fetchRuns oracle opts pageFuel fuel).1 = .ok runs →
      runs.Pairwise (fun a b => b.created_at ≤ a.created_at) := by
  intro pageFuel fuel runs h
  rcases hq : fetchRuns oracle opts pageFuel fuel with ⟨out, tr'⟩
  rw [hq] at h
  simp only at h
  subst h
  rw [fetchRuns] at hq
  exact fetchRunsLoop_sorted oracle opts hsorted hfilter pageFuel fuel initialState
    { requests := [], progress := [] } runs tr' hq (by simp [initialState])
    (fun _ => rfl) (by simp [initialState])

/-- An oracle serving one record on the first page of the unbounded
window and empty pages everywhere else. -/
def oracleOnePage : Oracle := fun req =>
  if req.upper = none ∧ req.page = 1 then .ok ⟨1, [runA]⟩ else .ok ⟨0, []⟩

theorem pagesFrom_nil (oracle : Oracle) (opts : FetchOpts) (upper : Option Int) :
    ∀ (n start : Nat), (∀ p, start ≤ p → pageRuns oracle opts upper p = []) →
      pagesFrom oracle opts upper start n = [] := by
  intro n
  induction n with
  | zero => intro start _; rfl
  | succ n ih =>
    intro start h
    rw [pagesFrom, h start le_rfl, ih (start + 1) (fun p hp => h p (by omega))]
    rfl

theorem oracleOnePage_pageRuns (upper : Option Int) (p : Nat) :
    pageRuns oracleOnePage optsPlain upper p =
      if upper = none ∧ p = 1 then [runA] else [] := by
  by_cases h : upper = none ∧ p = 1
  · simp [pageRuns, oracleOnePage, mkRequest, h]
  · rw [if_neg h]
    simp only [pageRuns, oracleOnePage]
    have h1 : (mkRequest optsPlain upper p).upper = upper := rfl
    have h2 : (mkRequest optsPlain upper p).page = p := rfl
    rw [h1, h2, if_neg h]

/-- Witness for C5 at a concrete oracle satisfying both hypotheses: the
retrieval succeeds and its single-record result is sorted. -/
theorem fetchRuns_sorted_witness :
    ([runA] : List WorkflowRun).Pairwise (fun a b => b.created_at ≤ a.created_at) :=
  fetchRuns_sorted oracleOnePage optsPlain
    (by
      intro upper n
      cases upper with
      | some u =>
        rw [pagesFrom_nil oracleOnePage optsPlain (some u) n 1
          (fun p _ => by simp [oracleOnePage_pageRuns])]
        exact List.Pairwise.nil
      | none =>
        cases n with
        | zero => exact List.Pairwise.nil
        | succ n =>
          rw [pagesFrom, oracleOnePage_pageRuns,
            pagesFrom_nil oracleOnePage optsPlain none n 2
              (fun p hp => by
                rw [oracleOnePage_pageRuns]
                rw [if_neg (by omega)])]
          simp)
    (by
      intro upper page r hr
      rw [oracleOnePage_pageRuns] at hr
      constructor
      · intro s hs
        exact absurd hs (by simp [optsPlain])
      · intro u hu
        rw [hu] at hr
        simp at hr)
    2 2 [runA] (by decide)

end Rungrep
